import Mathlib

set_option maxRecDepth 8000

/-!
A verification development for the MugenBlock cosmetic-filtering engine
(content script `content/index.ts`, main-world patching layer
`content/main-world.ts`, and service worker `background/index.ts`).

Conventions of the shallow embedding:
* DOM nodes are opaque identities, modelled as `Nat`.
* Wall-clock instants and durations are milliseconds, modelled as `Int`
  (`performance.now()` / `Date.now()` readings).
* Geometry (client rects, viewport sizes) is modelled over `ℚ`.
* `parseInt` applied to a computed `z-index` yields a number or `NaN`
  (for `"auto"`); we model the result as `Option Int`, `none` being `NaN`,
  and comparisons with `NaN` are false as in JavaScript.
* JavaScript strings are modelled as `List Char`.
-/

namespace MugenBlock

/-- JavaScript `z <= k` where `z` is a `parseInt` result: comparisons with
`NaN` (here `none`) are false. -/
def jsNumLe (z : Option Int) (k : Int) : Bool :=
  match z with
  | some v => decide (v ≤ k)
  | none => false

-- ─── Performance budget constants (content/index.ts lines 14-19) ───

def OBSERVER_BUDGET_MS : Int := 8

def IDLE_BATCH_SIZE : Nat := 50

def QUIET_MODE_THRESHOLD_MS : Int := 10000

-- ─── Engine state ──────────────────────────────────────────────────

/-- An inline CSS declaration as written by `el.style.setProperty`,
recording the value and the `!important` priority flag. -/
structure CssDecl where
  value : List Char
  important : Bool
deriving DecidableEq, Repr

/-- The mutable state of `CosmeticEngine` together with the inline styles
it has written on nodes.  `processedNodes` is the WeakSet of
classified-and-hidden nodes, `removalQueue` the FIFO of nodes pending
detachment.  `styleDisplay`/`styleVisibility` record each node's inline
`display`/`visibility` declaration (set via `el.style.setProperty`). -/
structure Engine where
  processedNodes : List Nat
  removalQueue : List Nat
  styleDisplay : Nat → Option CssDecl
  styleVisibility : Nat → Option CssDecl
  cosmeticHides : Nat
  heuristicRemovals : Nat
  mutationBatches : Nat
  quietMode : Bool
  lastAdDetection : Int

/-- Engine state at page load (constructor field initialisers). -/
def initEngine : Engine where
  processedNodes := []
  removalQueue := []
  styleDisplay := fun _ => none
  styleVisibility := fun _ => none
  cosmeticHides := 0
  heuristicRemovals := 0
  mutationBatches := 0
  quietMode := false
  lastAdDetection := 0

/-- `CosmeticEngine.hideElement` (content/index.ts lines 199-210): a node
already in `processedNodes` is left alone; otherwise it is recorded,
its `display`/`visibility` are forced off with `!important`, the hide
counter is bumped and the node is pushed on the removal queue. -/
def hideElement (s : Engine) (el : Nat) : Engine :=
  if el ∈ s.processedNodes then s
  else
    { s with
      processedNodes := el :: s.processedNodes
      styleDisplay := fun n => if n = el then some ⟨"none".toList, true⟩ else s.styleDisplay n
      styleVisibility := fun n => if n = el then some ⟨"hidden".toList, true⟩ else s.styleVisibility n
      cosmeticHides := s.cosmeticHides + 1
      removalQueue := s.removalQueue ++ [el] }

/-- One iteration of `processChunk` inside `processRemovalQueue`
(content/index.ts lines 215-223): shift and detach up to
`IDLE_BATCH_SIZE` nodes from the front of the queue (detachment errors
are swallowed and do not affect engine state). -/
def processChunk (s : Engine) : Engine :=
  { s with removalQueue := s.removalQueue.drop IDLE_BATCH_SIZE }

-- ─── Budgeted deferred pass ────────────────────────────────────────

/-- A candidate node queued for the deferred pass, as the budgeted loop
sees it: its identity, the wall-clock time its examination consumes,
whether it `isConnected`, and the list of nodes the six-step
`analyzeNode` classification would hide for it (in call order).  The
classification outcome is an oracle here: the claims below are about the
budgeted loop and the quiet-mode bookkeeping around it, not about the
heuristics inside `analyzeNode`. -/
structure Cand where
  id : Nat
  cost : Int
  connected : Bool
  verdict : List Nat
deriving DecidableEq, Repr

/-- Effect of one `analyzeNode` call: the hides it performs. -/
def analyzeEffect (s : Engine) (c : Cand) : Engine :=
  c.verdict.foldl hideElement s

/-- Outcome of the budgeted loop: the engine state, the clock when the
loop exited, and the candidates left unexamined. -/
structure PassResult where
  state : Engine
  endTime : Int
  leftover : List Cand

/-- The loop of `CosmeticEngine.processNodesBudgeted` (content/index.ts
lines 296-303): walk candidates in arrival order; before each candidate
compare `performance.now()` against the deadline and break once it is
exceeded; skip disconnected or already-processed candidates, analyze the
rest. -/
def passLoop (d : Int) : Engine → Int → List Cand → PassResult
  | s, t, [] => ⟨s, t, []⟩
  | s, t, c :: rest =>
    if t > d then ⟨s, t, c :: rest⟩
    else
      let s' := if c.connected = true ∧ c.id ∉ s.processedNodes then analyzeEffect s c else s
      passLoop d s' (t + c.cost) rest

/-- The quiet-mode bookkeeping at the end of `processNodesBudgeted`
(content/index.ts lines 305-313), evaluated at pass-completion time
`now`: if the cumulative hide counter is zero, enter quiet mode once
more than `QUIET_MODE_THRESHOLD_MS` have elapsed since
`lastAdDetection`; otherwise leave quiet mode and move
`lastAdDetection` to `now`. -/
def quietUpdate (s : Engine) (now : Int) : Engine :=
  if s.cosmeticHides = 0 then
    if s.quietMode = false ∧ now - s.lastAdDetection > QUIET_MODE_THRESHOLD_MS then
      { s with quietMode := true }
    else s
  else { s with lastAdDetection := now, quietMode := false }

/-- `CosmeticEngine.processNodesBudgeted` (content/index.ts lines
290-314): run the budgeted loop with deadline `start +
OBSERVER_BUDGET_MS`, then apply the quiet-mode update at the time the
loop finished. -/
def processNodesBudgeted (s : Engine) (start : Int) (nodes : List Cand) : Engine :=
  let r := passLoop (start + OBSERVER_BUDGET_MS) s start nodes
  quietUpdate r.state r.endTime

/-- Total examination cost of a candidate list. -/
def costSum (l : List Cand) : Int :=
  (l.map Cand.cost).sum

-- ─── Media Guard geometry sweep ────────────────────────────────────

/-- A DOM client rect as returned by `getBoundingClientRect`. -/
structure Rect where
  left : ℚ
  top : ℚ
  right : ℚ
  bottom : ℚ
  width : ℚ
  height : ℚ
deriving DecidableEq, Repr

/-- The bounding-box intersection test of `nukeOverlaysNearVideo`
(content/index.ts lines 520-521). -/
def rectOverlaps (r v : Rect) : Bool :=
  !(r.right < v.left || r.left > v.right || r.bottom < v.top || r.top > v.bottom)

/-- A candidate overlay as the geometry sweep reads it: one of the
elements returned by the inline-style query
`div[style*="fixed"], div[style*="absolute"]`.  `zIndex` is the
`parseInt` of its computed `z-index` (`none` for `"auto"`);
`containsVideo` is `el.contains(video)`; `isPlayerUI` the player-UI
allow-list test `el.matches('video, main, article, .content,
.video-player, nav, header, footer, [class*="player"],
[class*="controls"], .ytp-*, [id*="player"]')` (real selector engines
reject `.ytp-*`, which surfaces as `throwsOnRead`); `throwsOnRead`
marks an element whose style/geometry/matches read throws, which the
sweep's catch turns into a skip. -/
structure Overlay where
  id : Nat
  zIndex : Option Int
  rect : Rect
  containsVideo : Bool
  isPlayerUI : Bool
  throwsOnRead : Bool
deriving DecidableEq, Repr

/-- Per-overlay step of the sweep loop (content/index.ts lines 510-531). -/
def sweepStep (vRect : Rect) (s : Engine) (el : Overlay) : Engine :=
  if el.id ∈ s.processedNodes then s
  else if el.throwsOnRead then s
  else if jsNumLe el.zIndex 10 then s
  else if rectOverlaps el.rect vRect ∧ el.containsVideo = false then
    if el.isPlayerUI = false then hideElement s el.id else s
  else s

/-- `CosmeticEngine.nukeOverlaysNearVideo` (content/index.ts lines
503-532): skip outright when the guarded video is invisible or tiny,
otherwise run the per-overlay loop over the queried elements. -/
def nukeOverlaysNearVideo (s : Engine) (vRect : Rect) (overlays : List Overlay) : Engine :=
  if vRect.width < 50 ∨ vRect.height < 50 then s
  else overlays.foldl (sweepStep vRect) s

-- ─── Click protection ──────────────────────────────────────────────

/-- The exact click target as the capture-phase listener reads it.
`hasMatches` is the `target?.matches` guard; `position` the computed
position; `zIndex` the `parseInt` of the computed `z-index`;
`width`/`height` the target's client rect; `matchesSafeList` the test
`target.matches('video, main, article, .content, .video-player, nav,
form, dialog')`; `throwsOnRead` marks a target whose style read throws
(the catch lets the click through). -/
structure ClickTarget where
  id : Nat
  hasMatches : Bool
  position : List Char
  zIndex : Option Int
  width : ℚ
  height : ℚ
  matchesSafeList : Bool
  throwsOnRead : Bool
deriving DecidableEq, Repr

/-- Viewport dimensions `innerWidth`/`innerHeight`. -/
structure Viewport where
  w : ℚ
  h : ℚ
deriving DecidableEq, Repr

/-- The capture-phase click listener installed by
`CosmeticEngine.setupClickProtection` (content/index.ts lines 536-559).
Returns the engine state after the click and whether the click was
cancelled (`preventDefault` + `stopPropagation`); a cancelled click also
hides the target through `hideElement`. -/
def clickProtection (s : Engine) (vp : Viewport) (t : ClickTarget) : Engine × Bool :=
  if t.hasMatches = false then (s, false)
  else if t.throwsOnRead then (s, false)
  else if t.position ≠ "fixed".toList ∧ t.position ≠ "absolute".toList then (s, false)
  else if jsNumLe t.zIndex 10 then (s, false)
  else if t.width > vp.w * (4/10) ∧ t.height > vp.h * (4/10) then
    if t.matchesSafeList = false then (hideElement s t.id, true) else (s, false)
  else (s, false)

-- ─── Main-world patching layer (content/main-world.ts) ─────────────

/-- JavaScript `haystack.includes(needle)` on strings. -/
def strIncludes (haystack needle : List Char) : Bool :=
  haystack.tails.any fun t => needle.isPrefixOf t

/-- JavaScript `String.prototype.toLowerCase` (ASCII suffices for the
pattern lists involved). -/
def strToLower (s : List Char) : List Char :=
  s.map Char.toLower

/-- `AD_URL_PATTERNS` (main-world.ts lines 16-21). -/
def AD_URL_PATTERNS : List (List Char) :=
  ["exoclick".toList, "adsterra".toList, "juicyads".toList, "trafficjunky".toList,
   "popunder".toList, "clickunder".toList, "propellerads".toList, "hilltopads".toList,
   "adcash".toList, "clickadu".toList, "popcash".toList, "popads".toList,
   "admaven".toList, "revcontent".toList]

/-- `AD_HTML_MARKERS` (main-world.ts lines 23-26). -/
def AD_HTML_MARKERS : List (List Char) :=
  ["data-element".toList, "data-izone".toList,
   "title=\"offer\"".toList, "title=\"Advertisement\"".toList]

/-- `isAdNetworkUrl` (main-world.ts lines 28-32). -/
def isAdNetworkUrl (url : List Char) : Bool :=
  if url.isEmpty then false
  else AD_URL_PATTERNS.any fun p => strIncludes (strToLower url) p

/-- `hasAdMarkers` (main-world.ts lines 34-37): fragments shorter than 20
characters are never treated as ad injection. -/
def hasAdMarkers (html : List Char) : Bool :=
  if html.length < 20 then false
  else AD_HTML_MARKERS.any fun m => strIncludes html m

/-- Outcome of one wrapped capability call: either the wrapper returned
on its own (blocking, without delegating to the saved original), or it
delegated to the original operation. -/
inductive CallOutcome
  | blocked
  | delegated
deriving DecidableEq, Repr

/-- The patched `window.open` (main-world.ts lines 56-83), classified by
the target address: empty, `about:blank`, `blob:` and `data:` targets
are delegated unconditionally; known ad-network URLs and addresses
containing the suspicious keywords return `null` without delegating;
everything else is delegated. -/
def windowOpen (url : List Char) : CallOutcome :=
  if url.isEmpty ∨ url = "about:blank".toList
      ∨ "blob:".toList.isPrefixOf url ∨ "data:".toList.isPrefixOf url then
    .delegated
  else if isAdNetworkUrl url then .blocked
  else if strIncludes (strToLower url) "popunder".toList
      ∨ strIncludes (strToLower url) "clickunder".toList then .blocked
  else .delegated

/-- The patched `Element.prototype.insertAdjacentHTML` (main-world.ts
lines 127-137): block silently only when the fragment is a string longer
than 200 characters that carries an ad marker; otherwise delegate. -/
def insertAdjacentHTML (html : List Char) : CallOutcome :=
  if html.length > 200 ∧ hasAdMarkers html = true then .blocked
  else .delegated

/-- An element as the main-world `appendChild` wrapper reads it.
`hasHasAttribute` is the `typeof el.hasAttribute === 'function'` guard
inside `isAdMarkerElement`; `attrs` the attribute names present;
`className` is `some` exactly when `typeof el.className === 'string'`;
`styleDisplay`/`styleVisibility` its inline suppression declarations;
`payload` stands for everything else about the node, which the wrapper
must not touch. -/
structure JSNode where
  isHTMLElement : Bool
  hasHasAttribute : Bool
  attrs : List (List Char)
  className : Option (List Char)
  styleDisplay : Option CssDecl
  styleVisibility : Option CssDecl
  payload : Nat
deriving DecidableEq, Repr

/-- `isAdMarkerElement` (main-world.ts lines 39-48). -/
def isAdMarkerElement (el : JSNode) : Bool :=
  if el.hasHasAttribute = false then false
  else
    el.attrs.contains "data-element".toList
      || el.attrs.contains "data-izone".toList
      || (match el.className with
          | some c => strIncludes c "AdSlot".toList
          | none => false)

/-- Result of a call to the patched `appendChild`: whether it delegated
to the saved original, and the node as the original receives it (the
wrapper may have mutated its inline style beforehand). -/
structure AppendResult where
  delegated : Bool
  child : JSNode
deriving DecidableEq, Repr

/-- The patched `Element.prototype.appendChild` (main-world.ts lines
99-107): an incoming HTML element carrying ad-marker signatures is
forced invisible (display/visibility, both `!important`) before the
append, and the append is always delegated to the original operation
with the same node. -/
def appendChild (child : JSNode) : AppendResult :=
  if child.isHTMLElement = true ∧ isAdMarkerElement child = true then
    { delegated := true
      child :=
        { child with
          styleDisplay := some ⟨"none".toList, true⟩
          styleVisibility := some ⟨"hidden".toList, true⟩ } }
  else { delegated := true, child := child }

-- ─── Background service worker (background/index.ts) ───────────────

def MAX_PER_SITE_ENTRIES : Nat := 500

/-- `SiteSettings` (shared/src/types.ts). -/
structure SiteSettingsM where
  mode : List Char
  hostPermissionGranted : Bool
  cosmeticEnabled : Bool
  siteFixesEnabled : Bool
  mainWorldOff : Bool
  cosmeticsOff : Bool
  siteFixesOff : Bool
  breakageCount : Nat
  relaxUntil : Option Int
deriving DecidableEq, Repr

/-- `DEFAULT_SITE_SETTINGS` (shared/src/types.ts). -/
def DEFAULT_SITE_SETTINGS : SiteSettingsM where
  mode := "lite".toList
  hostPermissionGranted := false
  cosmeticEnabled := false
  siteFixesEnabled := false
  mainWorldOff := false
  cosmeticsOff := false
  siteFixesOff := false
  breakageCount := 0
  relaxUntil := none

/-- The per-site cache `Record<string, SiteSettings>`, modelled as an
association list in JavaScript object key order (string keys enumerate
in insertion order). -/
@[reducible] def PerSiteCache : Type := List (List Char × SiteSettingsM)

/-- Read `this.perSiteCache[domain]`. -/
def getSite : PerSiteCache → List Char → Option SiteSettingsM
  | [], _ => none
  | p :: rest, k => if p.1 = k then some p.2 else getSite rest k

/-- Write `this.perSiteCache[domain] = site`: updating an existing key
(object keys are unique, so at most one entry matches) keeps its
position, a new key is appended at the end, matching JavaScript object
key order. -/
def setSite : PerSiteCache → List Char → SiteSettingsM → PerSiteCache
  | [], k, v => [(k, v)]
  | p :: rest, k, v => if p.1 = k then (k, v) :: rest else p :: setSite rest k v

/-- Descending order on breakage counts, the comparator of
`prunePerSiteCache` (`(b[1].breakageCount || 0) - (a[1].breakageCount || 0)`). -/
def breakageGe (a b : List Char × SiteSettingsM) : Prop :=
  b.2.breakageCount ≤ a.2.breakageCount

instance : DecidableRel breakageGe := fun a b =>
  inferInstanceAs (Decidable (b.2.breakageCount ≤ a.2.breakageCount))

instance : IsTotal (List Char × SiteSettingsM) breakageGe :=
  ⟨fun a b => (Nat.le_total b.2.breakageCount a.2.breakageCount).elim Or.inl Or.inr⟩

instance : IsTrans (List Char × SiteSettingsM) breakageGe :=
  ⟨fun _ _ _ h1 h2 => Nat.le_trans h2 h1⟩

/-- `ExtensionServiceWorker.prunePerSiteCache` (background/index.ts lines
459-466): nothing happens at or below the cap; above it, entries are
sorted by breakage count descending (a stable sort, as JavaScript's)
and only the first `MAX_PER_SITE_ENTRIES` are kept. -/
def prunePerSiteCache (m : PerSiteCache) : PerSiteCache :=
  if m.length ≤ MAX_PER_SITE_ENTRIES then m
  else (m.insertionSort breakageGe).take MAX_PER_SITE_ENTRIES

/-- Response of `handleTemporaryRelax`: `{ok: true, relaxUntil}` or
`{ok: false, error: 'INVALID_PARAMS'}`. -/
inductive RelaxResult
  | ok (relaxUntil : Int)
  | invalidParams
deriving DecidableEq, Repr

/-- `ExtensionServiceWorker.handleTemporaryRelax` (background/index.ts
lines 320-356).  `normalized` is the result of `normalizeDomain`
(`none` for an invalid domain); `now` is `Date.now()`.  The
declarative-net-request session rule and the expiry alarm touch only
browser state, not the per-site cache, and are outside this model. -/
def handleTemporaryRelax (perSite : PerSiteCache) (now : Int)
    (normalized : Option (List Char)) (minutes : Int) : PerSiteCache × RelaxResult :=
  match normalized with
  | none => (perSite, .invalidParams)
  | some d =>
    if minutes < 1 ∨ minutes > 120 then (perSite, .invalidParams)
    else
      let untilTs := now + minutes * 60000
      let site := (getSite perSite d).getD DEFAULT_SITE_SETTINGS
      (setSite perSite d { site with relaxUntil := some untilTs }, .ok untilTs)

/-- Response of `handleSetMode`: `{ok: true, mode}` or
`{ok: false, error: 'INVALID_DOMAIN'}`. -/
inductive SetModeResult
  | ok (mode : List Char)
  | invalidDomain
deriving DecidableEq, Repr

/-- `ExtensionServiceWorker.handleSetMode` (background/index.ts lines
272-290): update the domain's entry, then prune the cache, then persist
and respond. -/
def handleSetMode (perSite : PerSiteCache)
    (normalized : Option (List Char)) (mode : List Char) : PerSiteCache × SetModeResult :=
  match normalized with
  | none => (perSite, .invalidDomain)
  | some d =>
    let site := (getSite perSite d).getD DEFAULT_SITE_SETTINGS
    let site' :=
      { site with
        mode := mode
        cosmeticEnabled := mode ≠ "lite".toList
        siteFixesEnabled := mode = "advanced".toList }
    (prunePerSiteCache (setSite perSite d site'), .ok mode)

/-- The three per-capability toggles accepted by `SET_SITE_TOGGLE`. -/
inductive ToggleKey
  | mainWorldOff
  | cosmeticsOff
  | siteFixesOff
deriving DecidableEq, Repr

/-- Generic ok/error response for the remaining handlers. -/
inductive SimpleResult
  | ok
  | invalidDomain
deriving DecidableEq, Repr

/-- `ExtensionServiceWorker.handleSetSiteToggle` (background/index.ts
lines 302-318): writes the toggle and persists; it never prunes. -/
def handleSetSiteToggle (perSite : PerSiteCache)
    (normalized : Option (List Char)) (key : ToggleKey) (value : Bool) :
    PerSiteCache × SimpleResult :=
  match normalized with
  | none => (perSite, .invalidDomain)
  | some d =>
    let site := (getSite perSite d).getD DEFAULT_SITE_SETTINGS
    let site' :=
      match key with
      | .mainWorldOff => { site with mainWorldOff := value }
      | .cosmeticsOff => { site with cosmeticsOff := value }
      | .siteFixesOff => { site with siteFixesOff := value }
    (setSite perSite d site', .ok)

/-- `ExtensionServiceWorker.handleReportIssue` (background/index.ts lines
379-399): bump the breakage counter, auto-downgrade to lite after two
reports; it never prunes. -/
def handleReportIssue (perSite : PerSiteCache)
    (normalized : Option (List Char)) : PerSiteCache × SimpleResult :=
  match normalized with
  | none => (perSite, .invalidDomain)
  | some d =>
    let site := (getSite perSite d).getD DEFAULT_SITE_SETTINGS
    let site' := { site with breakageCount := site.breakageCount + 1 }
    let site'' :=
      if 2 ≤ site'.breakageCount ∧ site'.mode ≠ "lite".toList then
        { site' with
          mode := "lite".toList
          cosmeticEnabled := false
          siteFixesEnabled := false }
      else site'
    (setSite perSite d site'', .ok)

-- ─── Engine operations and invariants ──────────────────────────────

/-- The engine-facing events of a page's lifetime that touch
`processedNodes`, the removal queue or the inline styles: a direct
`hideElement` call (fast cleanup, urgent path, `nukeAdRoot` target), a
removal-queue drain chunk, a deferred budgeted pass, a Media Guard
geometry sweep, and a protected click. -/
inductive EngineOp where
  | hide (el : Nat)
  | drain
  | pass (start : Int) (nodes : List Cand)
  | sweep (vRect : Rect) (overlays : List Overlay)
  | click (vp : Viewport) (t : ClickTarget)

/-- Apply one engine event. -/
def applyOp (s : Engine) : EngineOp → Engine
  | .hide el => hideElement s el
  | .drain => processChunk s
  | .pass start nodes => processNodesBudgeted s start nodes
  | .sweep vRect overlays => nukeOverlaysNearVideo s vRect overlays
  | .click vp t => (clickProtection s vp t).1

/-- The engine state reached from page load by a sequence of events. -/
def runOps (ops : List EngineOp) : Engine :=
  ops.foldl applyOp initEngine

/-- A node's inline styles carry the two suppression declarations written
by `hideElement`. -/
def suppressed (s : Engine) (n : Nat) : Prop :=
  s.styleDisplay n = some ⟨"none".toList, true⟩ ∧
  s.styleVisibility n = some ⟨"hidden".toList, true⟩

/-- The ProcessedSet/RemovalQueue invariant: no node is recorded twice,
the queue holds no duplicates, every queued node is in the processed
set, and every processed node is visually suppressed. -/
def EngineInv (s : Engine) : Prop :=
  s.processedNodes.Nodup ∧
  s.removalQueue.Nodup ∧
  (∀ n ∈ s.removalQueue, n ∈ s.processedNodes) ∧
  (∀ n ∈ s.processedNodes, suppressed s n)

/-- The Click Interceptor cancellation condition as the specification
words it (computed position fixed or absolute, stacking order exceeding
10, bounding box covering at least 40% of viewport width and height, no
allow-list match), stated for comparison with the behaviour of
`clickProtection`. -/
def clickSpecCancels (vp : Viewport) (t : ClickTarget) : Prop :=
  (t.position = "fixed".toList ∨ t.position = "absolute".toList) ∧
  (∃ z, t.zIndex = some z ∧ 10 < z) ∧
  vp.w * (4/10) ≤ t.width ∧ vp.h * (4/10) ≤ t.height ∧
  t.matchesSafeList = false

/-- A candidate whose analysis finds nothing to hide. -/
def candNull : Cand := ⟨3, 1, true, []⟩

/-- Observed projections of one node's state: membership in the
processed set, both inline suppression styles, and multiplicity in the
removal queue all agree between two engine states. -/
def nodeUntouched (s s' : Engine) (n : Nat) : Prop :=
  (n ∈ s'.processedNodes ↔ n ∈ s.processedNodes) ∧
  s'.styleDisplay n = s.styleDisplay n ∧
  s'.styleVisibility n = s.styleVisibility n ∧
  s'.removalQueue.count n = s.removalQueue.count n

/-- A guarded video's client rect (concrete fixture). -/
def guardVideoRect : Rect := ⟨100, 100, 700, 500, 600, 400⟩

/-- An overlay whose box and stacking order satisfy every hide criterion
but which contains the guarded video (concrete fixture). -/
def cexOverlayContain : Overlay := ⟨5, some 500, ⟨0, 0, 800, 600, 800, 600⟩, true, false, false⟩

/-- An overlay satisfying every hide criterion but matching the
player-UI allow-list (concrete fixture). -/
def cexOverlayPlayer : Overlay := ⟨5, some 500, ⟨0, 0, 800, 600, 800, 600⟩, false, true, false⟩

/-- A 1000×1000 viewport (concrete fixture). -/
def cexViewport : Viewport := ⟨1000, 1000⟩

/-- A fixed-position click target with z-index 500 covering exactly 40%
of the viewport in each dimension (concrete fixture). -/
def cexTarget40 : ClickTarget := ⟨1, true, "fixed".toList, some 500, 400, 400, false, false⟩

/-- A fixed-position click target with computed z-index `auto` (so
`parseInt` yields `NaN`) covering 60% of the viewport in each dimension
(concrete fixture). -/
def cexTargetAuto : ClickTarget := ⟨2, true, "fixed".toList, none, 600, 600, false, false⟩

-- ─── Theorems ──────────────────────────────────────────────────────

/-- C6.  Insert-markup-fragment interception: the wrapped
`insertAdjacentHTML` blocks (returns without delegating) iff the
fragment is longer than 200 characters and contains a known ad-marker
substring; all other calls delegate.  In particular a 250-character
fragment carrying `data-element` is blocked while the same fragment
truncated to 150 characters is delegated. -/
theorem insertAdjacentHTML_block_iff :
    (∀ html : List Char,
      insertAdjacentHTML html = .blocked ↔
        (200 < html.length ∧ ∃ m ∈ AD_HTML_MARKERS, strIncludes html m = true)) ∧
    insertAdjacentHTML ("data-element".toList ++ List.replicate 238 'x') = .blocked ∧
    ("data-element".toList ++ List.replicate 238 'x').length = 250 ∧
    insertAdjacentHTML ("data-element".toList ++ List.replicate 138 'x') = .delegated ∧
    ("data-element".toList ++ List.replicate 138 'x').length = 150 := by
  refine ⟨fun html => ?_, by decide, by decide, by decide, by decide⟩
  unfold insertAdjacentHTML hasAdMarkers
  by_cases h2 : 200 < html.length
  · have h20 : ¬ html.length < 20 := by omega
    simp [h2, h20, List.any_eq_true]
  · have h2' : ¬ html.length > 200 := h2
    simp [h2']

/-- C7.  Navigate-new-context interception: an empty target or one with
`about:blank`, `blob:` or `data:` scheme is unconditionally delegated;
otherwise the call returns null without delegating exactly when the
target matches a known ad-network substring or one of the suspicious
keywords, and is delegated in every other case.  Concretely,
`https://ads.exoclick.com/x` is blocked while the empty target and
`blob:abcd` are allowed. -/
theorem windowOpen_classification :
    (∀ url : List Char,
      (url.isEmpty = true ∨ url = "about:blank".toList
          ∨ "blob:".toList.isPrefixOf url = true
          ∨ "data:".toList.isPrefixOf url = true) →
        windowOpen url = .delegated) ∧
    (∀ url : List Char,
      ¬(url.isEmpty = true ∨ url = "about:blank".toList
          ∨ "blob:".toList.isPrefixOf url = true
          ∨ "data:".toList.isPrefixOf url = true) →
        (windowOpen url = .blocked ↔
          (isAdNetworkUrl url = true
            ∨ strIncludes (strToLower url) "popunder".toList = true
            ∨ strIncludes (strToLower url) "clickunder".toList = true))) ∧
    windowOpen "https://ads.exoclick.com/x".toList = .blocked ∧
    windowOpen "".toList = .delegated ∧
    windowOpen "blob:abcd".toList = .delegated := by
  refine ⟨fun url h => ?_, fun url h => ?_, by decide, by decide, by decide⟩
  · unfold windowOpen
    rw [if_pos h]
  · unfold windowOpen
    rw [if_neg h]
    split_ifs with had hsus
    · simp [had]
    · simp only [true_iff]
      exact Or.inr hsus
    · constructor
      · intro hx
        exact absurd hx (by decide)
      · rintro (hx | hx | hx)
        · exact absurd hx had
        · exact absurd (Or.inl hx) hsus
        · exact absurd (Or.inr hx) hsus

/-- C8.  Append-child frame effect: the wrapped `appendChild` always
delegates to the original operation with the same node; when the node is
an HTML element carrying ad-marker signatures, exactly its `display` and
`visibility` inline declarations are forced off at `!important` priority
before delegation, and nothing else about the node changes; otherwise the
node is passed through verbatim. -/
theorem appendChild_frame_effect :
    ∀ child : JSNode,
      (appendChild child).delegated = true ∧
      (child.isHTMLElement = true ∧ isAdMarkerElement child = true →
        (appendChild child).child =
          { child with
            styleDisplay := some ⟨"none".toList, true⟩
            styleVisibility := some ⟨"hidden".toList, true⟩ }) ∧
      (¬(child.isHTMLElement = true ∧ isAdMarkerElement child = true) →
        (appendChild child).child = child) ∧
      (appendChild child).child.attrs = child.attrs ∧
      (appendChild child).child.className = child.className ∧
      (appendChild child).child.payload = child.payload ∧
      (appendChild child).child.isHTMLElement = child.isHTMLElement := by
  intro child
  unfold appendChild
  by_cases h : child.isHTMLElement = true ∧ isAdMarkerElement child = true
  · simp [h]
  · simp [h]

/-- Reading back a key just written into the per-site cache. -/
theorem getSite_setSite_self (m : PerSiteCache) (k : List Char) (v : SiteSettingsM) :
    getSite (setSite m k v) k = some v := by
  induction m with
  | nil => simp [setSite, getSite]
  | cons p rest ih =>
    by_cases hp : p.1 = k
    · simp [setSite, getSite, hp]
    · simpa [setSite, getSite, hp] using ih

/-- Reading any other key is unaffected by a write. -/
theorem getSite_setSite_other (m : PerSiteCache) (k k' : List Char) (v : SiteSettingsM)
    (hne : k' ≠ k) : getSite (setSite m k v) k' = getSite m k' := by
  have hne' : ¬ k = k' := fun h => hne h.symm
  induction m with
  | nil => simp [setSite, getSite, hne']
  | cons p rest ih =>
    by_cases hp : p.1 = k
    · rw [show setSite (p :: rest) k v = (k, v) :: rest from by simp [setSite, hp]]
      simp [getSite, hne', hp]
    · rw [show setSite (p :: rest) k v = p :: setSite rest k v from by simp [setSite, hp]]
      by_cases hp' : p.1 = k'
      · simp [getSite, hp']
      · simp [getSite, hp', ih]

/-- Writing a key grows the cache by one entry exactly when the key is
new; an update keeps the length. -/
theorem length_setSite (m : PerSiteCache) (k : List Char) (v : SiteSettingsM) :
    (setSite m k v).length =
      if k ∈ m.map Prod.fst then m.length else m.length + 1 := by
  induction m with
  | nil => simp [setSite]
  | cons p rest ih =>
    by_cases hp : p.1 = k
    · rw [show setSite (p :: rest) k v = (k, v) :: rest from by simp [setSite, hp]]
      rw [if_pos (List.mem_map.mpr ⟨p, List.mem_cons_self p rest, hp⟩)]
      simp
    · have hp' : ¬ k = p.1 := fun h => hp h.symm
      rw [show setSite (p :: rest) k v = p :: setSite rest k v from by simp [setSite, hp]]
      by_cases hk : k ∈ rest.map Prod.fst
      · rw [if_pos (by simp [hk])]
        simp [ih, hk]
      · rw [if_neg (by simp [hp', hk])]
        simp [ih, hk]

/-- C9.  Temporary relax bounds: an invalid domain or a duration outside
`[1, 120]` minutes is rejected with an error response and leaves the
per-site state untouched; a duration inside the bounds on a valid
domain sets the site's `relaxUntil` to `now + minutes * 60000` and
returns that same timestamp in the response. -/
theorem handleTemporaryRelax_bounds :
    (∀ (ps : PerSiteCache) (now : Int) (nd : Option (List Char)) (m : Int),
      (nd = none ∨ m < 1 ∨ 120 < m) →
        handleTemporaryRelax ps now nd m = (ps, .invalidParams)) ∧
    (∀ (ps : PerSiteCache) (now : Int) (d : List Char) (m : Int),
      1 ≤ m → m ≤ 120 →
        (handleTemporaryRelax ps now (some d) m).2 = .ok (now + m * 60000) ∧
        getSite (handleTemporaryRelax ps now (some d) m).1 d =
          some { ((getSite ps d).getD DEFAULT_SITE_SETTINGS) with
                 relaxUntil := some (now + m * 60000) }) := by
  constructor
  · rintro ps now nd m (rfl | hm | hm)
    · rfl
    · cases nd with
      | none => rfl
      | some d =>
        simp only [handleTemporaryRelax]
        rw [if_pos (Or.inl hm)]
    · cases nd with
      | none => rfl
      | some d =>
        simp only [handleTemporaryRelax]
        rw [if_pos (Or.inr hm)]
  · intro ps now d m h1 h2
    have hcond : ¬(m < 1 ∨ m > 120) := by omega
    constructor
    · simp only [handleTemporaryRelax]
      rw [if_neg hcond]
    · simp only [handleTemporaryRelax]
      rw [if_neg hcond]
      exact getSite_setSite_self ..

/-- Pruning never leaves the cache above the cap. -/
theorem prunePerSiteCache_length_le (m : PerSiteCache) :
    (prunePerSiteCache m).length ≤ MAX_PER_SITE_ENTRIES := by
  unfold prunePerSiteCache
  split_ifs with h
  · exact h
  · rw [List.length_take, List.length_insertionSort]
    omega

/-- C10.  Per-site cache cap: after a set-mode operation on a valid
domain the cache holds at most `MAX_PER_SITE_ENTRIES` (500) entries;
when the cap forces pruning, exactly 500 entries survive and every
retained entry's breakage count is at least that of every pruned entry;
the toggle, relax and report handlers never prune — each only writes its
one entry, growing the cache without bound. -/
theorem perSiteCache_cap :
    (∀ ps d mode, ((handleSetMode ps (some d) mode).1).length ≤ MAX_PER_SITE_ENTRIES) ∧
    (∀ m : PerSiteCache, MAX_PER_SITE_ENTRIES < m.length →
      (prunePerSiteCache m).length = MAX_PER_SITE_ENTRIES ∧
      ∀ a ∈ prunePerSiteCache m,
        ∀ b ∈ (m.insertionSort breakageGe).drop MAX_PER_SITE_ENTRIES,
          b.2.breakageCount ≤ a.2.breakageCount) ∧
    (∀ ps d key value, ((handleSetSiteToggle ps (some d) key value).1).length =
      if d ∈ ps.map Prod.fst then ps.length else ps.length + 1) ∧
    (∀ (ps : PerSiteCache) (now : Int) (d : List Char) (m : Int), ¬(m < 1 ∨ m > 120) →
      ((handleTemporaryRelax ps now (some d) m).1).length =
        if d ∈ ps.map Prod.fst then ps.length else ps.length + 1) ∧
    (∀ ps d, ((handleReportIssue ps (some d)).1).length =
      if d ∈ ps.map Prod.fst then ps.length else ps.length + 1) := by
  refine ⟨fun ps d mode => ?_, fun m hm => ⟨?_, ?_⟩, fun ps d key value => ?_,
    fun ps now d m hm => ?_, fun ps d => ?_⟩
  · simp only [handleSetMode]
    exact prunePerSiteCache_length_le _
  · unfold prunePerSiteCache
    rw [if_neg (by omega)]
    rw [List.length_take, List.length_insertionSort]
    omega
  · intro a ha b hb
    have hsorted : List.Pairwise breakageGe (m.insertionSort breakageGe) :=
      List.sorted_insertionSort breakageGe m
    rw [← List.take_append_drop MAX_PER_SITE_ENTRIES (m.insertionSort breakageGe)] at hsorted
    have ha' : a ∈ (m.insertionSort breakageGe).take MAX_PER_SITE_ENTRIES := by
      have : prunePerSiteCache m =
          (m.insertionSort breakageGe).take MAX_PER_SITE_ENTRIES := by
        unfold prunePerSiteCache
        rw [if_neg (by omega)]
      rwa [this] at ha
    exact (List.pairwise_append.mp hsorted).2.2 a ha' b hb
  · simp only [handleSetSiteToggle]
    exact length_setSite ..
  · simp only [handleTemporaryRelax]
    rw [if_neg hm]
    exact length_setSite ..
  · simp only [handleReportIssue]
    exact length_setSite ..

/-- `hideElement` preserves the ProcessedSet/RemovalQueue invariant. -/
theorem hideElement_inv (s : Engine) (el : Nat) (h : EngineInv s) :
    EngineInv (hideElement s el) := by
  by_cases hel : el ∈ s.processedNodes
  · simpa only [hideElement, if_pos hel] using h
  · obtain ⟨hnp, hnq, hqsub, hsty⟩ := h
    simp only [hideElement, if_neg hel]
    refine ⟨List.nodup_cons.mpr ⟨hel, hnp⟩, ?_, ?_, ?_⟩
    · have helq : el ∉ s.removalQueue := fun hmem => hel (hqsub el hmem)
      simp [List.nodup_append, hnq, helq]
    · intro n hn
      rcases List.mem_append.mp hn with hn | hn
      · exact List.mem_cons_of_mem _ (hqsub n hn)
      · simp only [List.mem_singleton] at hn
        subst hn
        exact List.mem_cons_self ..
    · intro n hn
      rcases List.mem_cons.mp hn with rfl | hn
      · simp [suppressed]
      · have hne : n ≠ el := fun he => hel (he ▸ hn)
        have hold := hsty n hn
        simpa [suppressed, hne] using hold

/-- Draining a removal chunk preserves the invariant. -/
theorem processChunk_inv (s : Engine) (h : EngineInv s) :
    EngineInv (processChunk s) := by
  obtain ⟨hnp, hnq, hqsub, hsty⟩ := h
  exact ⟨hnp, hnq.sublist (List.drop_sublist ..),
    fun n hn => hqsub n (List.mem_of_mem_drop hn), hsty⟩

/-- A block of consecutive hides preserves the invariant. -/
theorem foldl_hideElement_inv (l : List Nat) :
    ∀ s : Engine, EngineInv s → EngineInv (l.foldl hideElement s) := by
  induction l with
  | nil => exact fun s h => h
  | cons a rest ih => exact fun s h => ih (hideElement s a) (hideElement_inv s a h)

/-- The quiet-mode update leaves the set, queue and styles untouched. -/
theorem quietUpdate_fields (s : Engine) (now : Int) :
    (quietUpdate s now).processedNodes = s.processedNodes ∧
    (quietUpdate s now).removalQueue = s.removalQueue ∧
    (quietUpdate s now).styleDisplay = s.styleDisplay ∧
    (quietUpdate s now).styleVisibility = s.styleVisibility := by
  unfold quietUpdate
  split_ifs <;> simp

/-- The quiet-mode update preserves the invariant. -/
theorem quietUpdate_inv (s : Engine) (now : Int) (h : EngineInv s) :
    EngineInv (quietUpdate s now) := by
  obtain ⟨f1, f2, f3, f4⟩ := quietUpdate_fields s now
  unfold EngineInv suppressed
  rw [f1, f2, f3, f4]
  exact h

/-- The budgeted loop preserves the invariant. -/
theorem passLoop_inv (d : Int) (nodes : List Cand) :
    ∀ (s : Engine) (t : Int), EngineInv s → EngineInv (passLoop d s t nodes).state := by
  induction nodes with
  | nil => exact fun s t h => h
  | cons c rest ih =>
    intro s t h
    by_cases ht : t > d
    · simpa only [passLoop, if_pos ht] using h
    · simp only [passLoop, if_neg ht]
      apply ih
      by_cases hc : c.connected = true ∧ c.id ∉ s.processedNodes
      · simpa only [if_pos hc] using foldl_hideElement_inv c.verdict s h
      · simpa only [if_neg hc] using h

/-- A full deferred pass preserves the invariant. -/
theorem processNodesBudgeted_inv (s : Engine) (start : Int) (nodes : List Cand)
    (h : EngineInv s) : EngineInv (processNodesBudgeted s start nodes) :=
  quietUpdate_inv _ _ (passLoop_inv _ nodes s start h)

/-- One geometry-sweep step preserves the invariant. -/
theorem sweepStep_inv (vRect : Rect) (s : Engine) (el : Overlay) (h : EngineInv s) :
    EngineInv (sweepStep vRect s el) := by
  unfold sweepStep
  split_ifs <;> first | exact h | exact hideElement_inv _ _ h

/-- The Media Guard geometry sweep preserves the invariant. -/
theorem nukeOverlaysNearVideo_inv (s : Engine) (vRect : Rect) (overlays : List Overlay)
    (h : EngineInv s) : EngineInv (nukeOverlaysNearVideo s vRect overlays) := by
  unfold nukeOverlaysNearVideo
  split_ifs with hv
  · exact h
  · clear hv
    induction overlays generalizing s with
    | nil => exact h
    | cons o rest ih => exact ih (sweepStep vRect s o) (sweepStep_inv vRect s o h)

/-- The click handler preserves the invariant. -/
theorem clickProtection_inv (s : Engine) (vp : Viewport) (t : ClickTarget)
    (h : EngineInv s) : EngineInv (clickProtection s vp t).1 := by
  unfold clickProtection
  split_ifs <;> first | exact h | exact hideElement_inv _ _ h

/-- Every engine event preserves the invariant. -/
theorem applyOp_inv (s : Engine) (op : EngineOp) (h : EngineInv s) :
    EngineInv (applyOp s op) := by
  cases op with
  | hide el => exact hideElement_inv s el h
  | drain => exact processChunk_inv s h
  | pass start nodes => exact processNodesBudgeted_inv s start nodes h
  | sweep vRect overlays => exact nukeOverlaysNearVideo_inv s vRect overlays h
  | click vp t => exact clickProtection_inv s vp t h

/-- C3.  Hide idempotence and queue invariant: calling `hideElement` on a
node already in the processed set is a no-op on the whole engine state
(counter, styles and queue included); and in every state reachable from
page load no node is recorded twice, membership implies both suppression
styles are set, and the removal queue holds only processed nodes with no
duplicates. -/
theorem hideElement_idempotent_invariant :
    (∀ (s : Engine) (el : Nat), el ∈ s.processedNodes → hideElement s el = s) ∧
    (∀ ops : List EngineOp, EngineInv (runOps ops)) := by
  constructor
  · intro s el h
    simp only [hideElement, if_pos h]
  · intro ops
    have hrun : ∀ (l : List EngineOp) (s : Engine),
        EngineInv s → EngineInv (l.foldl applyOp s) := by
      intro l
      induction l with
      | nil => exact fun s h => h
      | cons op rest ih => exact fun s h => ih (applyOp s op) (applyOp_inv s op h)
    refine hrun ops initEngine ?_
    refine ⟨List.nodup_nil, List.nodup_nil, ?_, ?_⟩ <;> intro n hn <;> cases hn

/-- Hiding one node leaves every other node's observable state alone. -/
theorem hideElement_frame (s : Engine) (m n : Nat) (hne : n ≠ m) :
    nodeUntouched s (hideElement s m) n := by
  by_cases hm : m ∈ s.processedNodes
  · simp [hideElement, hm, nodeUntouched]
  · simp [hideElement, hm, nodeUntouched, hne, List.count_append]

/-- Two-state node agreement is transitive. -/
theorem nodeUntouched_trans {s₁ s₂ s₃ : Engine} {n : Nat}
    (h1 : nodeUntouched s₁ s₂ n) (h2 : nodeUntouched s₂ s₃ n) :
    nodeUntouched s₁ s₃ n := by
  obtain ⟨a1, b1, c1, d1⟩ := h1
  obtain ⟨a2, b2, c2, d2⟩ := h2
  exact ⟨a2.trans a1, b2.trans b1, c2.trans c1, d2.trans d1⟩

/-- One sweep step never touches a node all of whose matching overlays
contain the video or match the player-UI allow-list. -/
theorem sweepStep_frame (vRect : Rect) (s : Engine) (el : Overlay) (n : Nat)
    (hel : el.id = n → el.containsVideo = true ∨ el.isPlayerUI = true) :
    nodeUntouched s (sweepStep vRect s el) n := by
  unfold sweepStep
  split_ifs with h1 h2 h3 h4 h5
  · exact ⟨Iff.rfl, rfl, rfl, rfl⟩
  · exact ⟨Iff.rfl, rfl, rfl, rfl⟩
  · exact ⟨Iff.rfl, rfl, rfl, rfl⟩
  · refine hideElement_frame s el.id n fun he => ?_
    rcases hel he.symm with hc | hp
    · rw [h4.2] at hc
      cases hc
    · rw [h5] at hp
      cases hp
  · exact ⟨Iff.rfl, rfl, rfl, rfl⟩
  · exact ⟨Iff.rfl, rfl, rfl, rfl⟩

/-- C4.  Media Guard containment: the geometry-targeted sweep never
hides an element that contains the guarded media element, and never
hides an element matching the player-UI allow-list — such a node's
processed-set membership, suppression styles and removal-queue
multiplicity are all left exactly as they were, even when the overlay
meets every other criterion. -/
theorem nukeOverlaysNearVideo_containment (s : Engine) (vRect : Rect)
    (overlays : List Overlay) (n : Nat)
    (h : ∀ el ∈ overlays, el.id = n → el.containsVideo = true ∨ el.isPlayerUI = true) :
    nodeUntouched s (nukeOverlaysNearVideo s vRect overlays) n := by
  unfold nukeOverlaysNearVideo
  split_ifs with hv
  · exact ⟨Iff.rfl, rfl, rfl, rfl⟩
  · clear hv
    induction overlays generalizing s with
    | nil => exact ⟨Iff.rfl, rfl, rfl, rfl⟩
    | cons o rest ih =>
      have hstep := sweepStep_frame vRect s o n (h o (List.mem_cons_self ..))
      have hrest := ih (sweepStep vRect s o) fun el hm => h el (List.mem_cons_of_mem _ hm)
      exact nodeUntouched_trans hstep hrest

/-- Witness for C4 at a concrete video, one containing overlay and one
allow-listed overlay. -/
theorem nukeOverlaysNearVideo_containment_witness :
    (∀ el ∈ [cexOverlayContain, cexOverlayPlayer], el.id = 5 →
      el.containsVideo = true ∨ el.isPlayerUI = true) ∧
    nodeUntouched initEngine
      (nukeOverlaysNearVideo initEngine guardVideoRect [cexOverlayContain, cexOverlayPlayer]) 5 :=
  ⟨by decide, nukeOverlaysNearVideo_containment initEngine guardVideoRect
    [cexOverlayContain, cexOverlayPlayer] 5 (by decide)⟩

/-- Counterexample to C5 as stated.  First, a fixed-position, z-index
500 target covering exactly 40% of the viewport in both dimensions
meets every condition of the claim (whose coverage bound is "at least
40%"), yet the code passes the click through unmodified, because the
source compares with strict `>`.  Second, a fixed-position target with
computed z-index `auto` covering 60% of the viewport does not meet the
claim's "stacking order exceeds 10" condition, yet the code cancels the
click: `parseInt('auto')` is `NaN` and `NaN <= 10` is false, so the
`z <= 10` early return is not taken. -/
theorem clickProtection_claim_counterexample :
    (clickSpecCancels cexViewport cexTarget40 ∧
      clickProtection initEngine cexViewport cexTarget40 = (initEngine, false)) ∧
    (¬clickSpecCancels cexViewport cexTargetAuto ∧
      (clickProtection initEngine cexViewport cexTargetAuto).2 = true) := by
  refine ⟨⟨⟨Or.inl rfl, ⟨500, rfl, by norm_num⟩, by norm_num [cexViewport, cexTarget40],
    by norm_num [cexViewport, cexTarget40], rfl⟩, ?_⟩, ⟨?_, ?_⟩⟩
  · unfold clickProtection
    rw [if_neg (by decide), if_neg (by decide), if_neg (by decide), if_neg (by decide),
      if_neg (by norm_num [cexViewport, cexTarget40])]
  · rintro ⟨-, ⟨z, hz, -⟩, -⟩
    exact absurd hz (by simp [cexTargetAuto])
  · unfold clickProtection
    rw [if_neg (by decide), if_neg (by decide), if_neg (by decide), if_neg (by decide),
      if_pos (by norm_num [cexViewport, cexTargetAuto]), if_pos (by decide)]

/-- C5 (amended).  Click Interceptor decision: a click is cancelled (and
its target hidden through `hideElement`) exactly when the target exposes
`matches`, its style read does not throw, its computed position is fixed
or absolute, its parsed z-index is not a number at most 10 (it exceeds
10 or is non-numeric, `parseInt('auto')` being `NaN`), its bounding box
covers strictly more than 40% of the viewport in both dimensions, and
it does not match the allow-list; every other click passes through with
the engine state unchanged. -/
theorem clickProtection_amended :
    ∀ (s : Engine) (vp : Viewport) (t : ClickTarget),
      ((clickProtection s vp t).2 = true ↔
        (t.hasMatches = true ∧ t.throwsOnRead = false ∧
         (t.position = "fixed".toList ∨ t.position = "absolute".toList) ∧
         jsNumLe t.zIndex 10 = false ∧
         t.width > vp.w * (4/10) ∧ t.height > vp.h * (4/10) ∧
         t.matchesSafeList = false)) ∧
      ((clickProtection s vp t).2 = true →
        (clickProtection s vp t).1 = hideElement s t.id) ∧
      ((clickProtection s vp t).2 = false →
        (clickProtection s vp t).1 = s) := by
  intro s vp t
  have hOr : ¬(t.position ≠ "fixed".toList ∧ t.position ≠ "absolute".toList) →
      (t.position = "fixed".toList ∨ t.position = "absolute".toList) := by
    intro hp
    by_cases hf : t.position = "fixed".toList
    · exact Or.inl hf
    · right
      by_contra hab
      exact hp ⟨hf, hab⟩
  unfold clickProtection
  split_ifs with h1 h2 h3 h4 h5 h6
  · simp [h1]
  · simp [h2]
  · obtain ⟨ha, hb⟩ := h3
    simp at ha hb
    simp [ha, hb]
  · simp [h4]
  · have hm : t.hasMatches = true := by revert h1; cases t.hasMatches <;> simp
    have ht : t.throwsOnRead = false := by revert h2; cases t.throwsOnRead <;> simp
    have hz : jsNumLe t.zIndex 10 = false := by
      revert h4; cases jsNumLe t.zIndex 10 <;> simp
    have hpos := hOr h3
    simp at hpos
    simp [hm, ht, hz, hpos, h5.1, h5.2, h6]
  · have h6' : t.matchesSafeList = true := by revert h6; cases t.matchesSafeList <;> simp
    simp [h6']
  · constructor
    · simp only [show ((s, false).2 = true) = False from by simp, false_iff]
      intro hx
      exact h5 ⟨hx.2.2.2.2.1, hx.2.2.2.2.2.1⟩
    · exact ⟨fun hx => absurd hx (by simp), fun _ => rfl⟩

/-- Counterexample to C1 as stated.  First, a deferred pass that itself
produced zero hides, run 20000 ms after page load on an engine whose
only hide happened at time 0 (`lastAdDetection` still 0, so far more
than 10 s have elapsed since the last hide): the claim demands
`quiet = true` after the pass, but the code tests the *cumulative*
counter `cosmeticHides === 0`, finds it nonzero, and instead sets
`quiet = false` while moving the timestamp.  Second, a successful hide
performed while quiet mode is active leaves `quietMode = true` and the
timestamp untouched: `hideElement` does not touch the quiet state at
all, so no hide "immediately" clears it. -/
theorem quietMode_claim_counterexample :
    ((hideElement initEngine 7).cosmeticHides = 1 ∧
     (hideElement initEngine 7).lastAdDetection = 0 ∧
     (processNodesBudgeted (hideElement initEngine 7) 20000 [candNull]).cosmeticHides = 1 ∧
     (processNodesBudgeted (hideElement initEngine 7) 20000 [candNull]).quietMode = false) ∧
    ((processNodesBudgeted initEngine 20000 [candNull]).quietMode = true ∧
     (hideElement (processNodesBudgeted initEngine 20000 [candNull]) 9).cosmeticHides = 1 ∧
     (hideElement (processNodesBudgeted initEngine 20000 [candNull]) 9).quietMode = true ∧
     (hideElement (processNodesBudgeted initEngine 20000 [candNull]) 9).lastAdDetection = 0) := by
  refine ⟨⟨by decide, by decide, by decide, by decide⟩, by decide, by decide, by decide, by decide⟩

/-- C1 (amended).  Quiet-mode hysteresis as the code implements it: at
the end of a deferred pass, if the *cumulative* hide counter is zero,
quiet mode is not already active and more than 10000 ms have elapsed
since `lastAdDetection`, the pass sets `quiet = true` (keeping the
timestamp); if the cumulative counter is nonzero, the pass sets
`quiet = false` and resets the timestamp to the pass-completion time —
this happens whether or not this pass hid anything.  An individual hide
never modifies the quiet flag or the timestamp itself; the
`processNodesBudgeted` outcome is exactly the quiet update applied to
the budgeted loop's final state at its finishing time. -/
theorem quietMode_hysteresis_amended :
    (∀ (s : Engine) (now : Int),
      s.cosmeticHides = 0 → s.quietMode = false →
      now - s.lastAdDetection > QUIET_MODE_THRESHOLD_MS →
        (quietUpdate s now).quietMode = true ∧
        (quietUpdate s now).lastAdDetection = s.lastAdDetection) ∧
    (∀ (s : Engine) (now : Int),
      s.cosmeticHides = 0 →
      ¬(s.quietMode = false ∧ now - s.lastAdDetection > QUIET_MODE_THRESHOLD_MS) →
        quietUpdate s now = s) ∧
    (∀ (s : Engine) (now : Int),
      s.cosmeticHides ≠ 0 →
        (quietUpdate s now).quietMode = false ∧
        (quietUpdate s now).lastAdDetection = now) ∧
    (∀ (s : Engine) (el : Nat),
      (hideElement s el).quietMode = s.quietMode ∧
      (hideElement s el).lastAdDetection = s.lastAdDetection) ∧
    (∀ (s : Engine) (start : Int) (nodes : List Cand),
      processNodesBudgeted s start nodes =
        quietUpdate (passLoop (start + OBSERVER_BUDGET_MS) s start nodes).state
          (passLoop (start + OBSERVER_BUDGET_MS) s start nodes).endTime) := by
  refine ⟨fun s now h0 hq hgt => ?_, fun s now h0 hn => ?_, fun s now h0 => ?_,
    fun s el => ?_, fun s start nodes => rfl⟩
  · simp [quietUpdate, h0, hq, hgt]
  · rw [quietUpdate, if_pos h0, if_neg hn]
  · simp [quietUpdate, h0]
  · by_cases hel : el ∈ s.processedNodes
    · simp [hideElement, hel]
    · simp [hideElement, hel]

/-- Structure of the budgeted loop: it examines exactly a prefix
`nodes.take k`, finishes at the accumulated cost of that prefix, every
examined candidate was reached while the clock was at or below the
deadline, the first unexamined candidate (if any) was reached past the
deadline, the unexamined suffix is returned untouched, and the final
state is exactly the state of running the loop on the prefix alone. -/
theorem passLoop_budget (d : Int) :
    ∀ (nodes : List Cand) (s : Engine) (t : Int),
      ∃ k ≤ nodes.length,
        (passLoop d s t nodes).leftover = nodes.drop k ∧
        (passLoop d s t nodes).endTime = t + costSum (nodes.take k) ∧
        (∀ i < k, t + costSum (nodes.take i) ≤ d) ∧
        (k < nodes.length → d < t + costSum (nodes.take k)) ∧
        (passLoop d s t nodes).state = (passLoop d s t (nodes.take k)).state := by
  intro nodes
  induction nodes with
  | nil =>
    intro s t
    exact ⟨0, Nat.le_refl 0, rfl, by simp [costSum, passLoop],
      fun i hi => absurd hi (Nat.not_lt_zero i), fun h => absurd h (by simp), rfl⟩
  | cons c rest ih =>
    intro s t
    by_cases ht : t > d
    · refine ⟨0, Nat.zero_le _, ?_, ?_, by omega, fun _ => ?_, ?_⟩
      · simp [passLoop, ht]
      · simp [passLoop, ht, costSum]
      · simpa [costSum] using ht
      · simp [passLoop, ht]
    · obtain ⟨k, hk, hleft, hend, hin, hbound, hstate⟩ :=
        ih (if c.connected = true ∧ c.id ∉ s.processedNodes then analyzeEffect s c else s)
          (t + c.cost)
      refine ⟨k + 1, Nat.succ_le_succ hk, ?_, ?_, ?_, ?_, ?_⟩
      · simpa [passLoop, ht] using hleft
      · rw [show passLoop d s t (c :: rest) =
          passLoop d (if c.connected = true ∧ c.id ∉ s.processedNodes then analyzeEffect s c
            else s) (t + c.cost) rest from by simp [passLoop, ht]]
        rw [hend]
        simp [costSum]
        omega
      · intro i hi
        cases i with
        | zero => simpa [costSum] using not_lt.mp ht
        | succ j =>
          have hj := hin j (Nat.lt_of_succ_lt_succ hi)
          simp only [List.take_succ_cons, costSum, List.map_cons, List.sum_cons] at hj ⊢
          omega
      · intro hklen
        have hb := hbound (Nat.lt_of_succ_lt_succ hklen)
        simp only [List.take_succ_cons, costSum, List.map_cons, List.sum_cons] at hb ⊢
        omega
      · rw [show passLoop d s t (c :: rest) =
          passLoop d (if c.connected = true ∧ c.id ∉ s.processedNodes then analyzeEffect s c
            else s) (t + c.cost) rest from by simp [passLoop, ht]]
        rw [show passLoop d s t ((c :: rest).take (k + 1)) =
          passLoop d (if c.connected = true ∧ c.id ∉ s.processedNodes then analyzeEffect s c
            else s) (t + c.cost) (rest.take k) from by simp [passLoop, ht]]
        exact hstate

/-- C2.  Budget bound of the deferred pass: the deadline is the start
time plus the fixed 8 ms budget; candidates are examined in arrival
order and, once the clock exceeds the deadline, no further candidate of
the batch is analyzed; the remaining suffix is left unclassified for
the round and is not carried over — the pass outcome is exactly the
quiet update applied to the loop run on the examined prefix alone, and
the engine state retains no pending candidates. -/
theorem processNodesBudgeted_budget_bound :
    OBSERVER_BUDGET_MS = 8 ∧
    ∀ (s : Engine) (start : Int) (nodes : List Cand),
      ∃ k ≤ nodes.length,
        (passLoop (start + OBSERVER_BUDGET_MS) s start nodes).leftover = nodes.drop k ∧
        (∀ i < k, start + costSum (nodes.take i) ≤ start + OBSERVER_BUDGET_MS) ∧
        (k < nodes.length →
          start + OBSERVER_BUDGET_MS < start + costSum (nodes.take k)) ∧
        processNodesBudgeted s start nodes =
          quietUpdate (passLoop (start + OBSERVER_BUDGET_MS) s start (nodes.take k)).state
            (start + costSum (nodes.take k)) := by
  refine ⟨rfl, fun s start nodes => ?_⟩
  obtain ⟨k, hk, hleft, hend, hin, hbound, hstate⟩ :=
    passLoop_budget (start + OBSERVER_BUDGET_MS) nodes s start
  refine ⟨k, hk, hleft, hin, hbound, ?_⟩
  have hdef : processNodesBudgeted s start nodes =
      quietUpdate (passLoop (start + OBSERVER_BUDGET_MS) s start nodes).state
        (passLoop (start + OBSERVER_BUDGET_MS) s start nodes).endTime := rfl
  rw [hdef, hstate, hend]

end MugenBlock
